import Mathlib

/-!
Verification of the Journal Tree & Redundancy Analysis Engine.

This file gives a shallow embedding, in Lean, of the engine that analyzes
agent execution journals: tree reconstruction from a child-to-parent index
(`build_tree_structure` in judge_journal.py and update_tree_structure.py),
structural redundancy detection over sibling code (`get_ast_logic`,
`analyze_code_redundancy` in journal_viz_.py), the side-by-side diff renderer
(`generate_side_by_side_diff`), the judgment pipeline with its skip rule and
rate-limit retry logic (judge_journal.py, fix_judgment_errors.py), and the
semantic plan grouper (`analyze_all_plans` in plan_judge.py).

External effects are modelled explicitly: the LLM classifier is an oracle
function passed as a parameter, calls are counted, sleeps are collected in a
list, and file writes are reified as a `WriteAction` value.  Python dicts
with insertion order are modelled as association lists built by `upsert`.
-/

namespace JournalEngine

/-! ## String utilities

Python string operations (`strip`, `splitlines`, `replace`, `in`,
`"\n".join`) are modelled on the character list underlying the string, so
every definition evaluates inside the kernel on concrete inputs. -/

/-- Python `str.strip()` on a character list: drop whitespace at both ends. -/
def stripChars (l : List Char) : List Char :=
  ((l.dropWhile Char.isWhitespace).reverse.dropWhile Char.isWhitespace).reverse

/-- Python `str.strip()`. -/
def strip (s : String) : String :=
  String.mk (stripChars s.toList)

/-- Helper for `splitlines`: accumulate the current line (reversed) and emit
on a newline character.  A trailing line is emitted only when non-empty,
matching Python, which emits no empty final line for a trailing newline. -/
def splitlinesAux : List Char → List Char → List String
  | [], acc => if acc.isEmpty then [] else [String.mk acc.reverse]
  | c :: cs, acc =>
    if c = '\n' then String.mk acc.reverse :: splitlinesAux cs []
    else splitlinesAux cs (c :: acc)

/-- Python `str.splitlines()` (newline-only model, which is the separator the
engine produces and consumes). -/
def splitlines (s : String) : List String :=
  splitlinesAux s.toList []

/-- Characters of `"\n".join(lines)`. -/
def joinLinesChars : List String → List Char
  | [] => []
  | [s] => s.toList
  | s :: rest => s.toList ++ '\n' :: joinLinesChars rest

/-- Python `"\n".join(lines)`. -/
def joinLines (ls : List String) : String :=
  String.mk (joinLinesChars ls)

/-- Helper for `strContains`: does `pat` occur as a contiguous run of `l`? -/
def strContainsAux (pat : List Char) : List Char → Bool
  | [] => pat.isEmpty
  | c :: cs => pat.isPrefixOf (c :: cs) || strContainsAux pat cs

/-- Python `pat in s` on strings. -/
def strContains (s pat : String) : Bool :=
  strContainsAux pat.toList s.toList

/-- Fuel-bounded body of `strReplace`; the fuel starts at the length of the
subject so it never runs out (each step consumes at least one character). -/
def replaceListFuel (pat repl : List Char) : Nat → List Char → List Char
  | _, [] => []
  | 0, l => l
  | fuel + 1, c :: cs =>
    if !pat.isEmpty && pat.isPrefixOf (c :: cs) then
      repl ++ replaceListFuel pat repl fuel ((c :: cs).drop pat.length)
    else
      c :: replaceListFuel pat repl fuel cs

/-- Python `s.replace(pat, repl)` for a non-empty pattern: leftmost,
non-overlapping occurrences. -/
def strReplace (s pat repl : String) : String :=
  String.mk (replaceListFuel pat.toList repl.toList s.toList.length s.toList)

/-- Total lexicographic comparison of character lists, used to model
Python `sorted` on strings. -/
def charListLe : List Char → List Char → Bool
  | [], _ => true
  | _ :: _, [] => false
  | a :: as, b :: bs => if a = b then charListLe as bs else decide (a < b)

/-- Python `sorted` on a list of strings. -/
def sortStr (l : List String) : List String :=
  List.insertionSort (fun a b => charListLe a.toList b.toList = true) l

/-- Python `sorted` on a list of natural numbers. -/
def sortNat (l : List Nat) : List Nat :=
  List.insertionSort (· ≤ ·) l

/-! ## Data model

A journal node as the scripts consume it.  Optional JSON fields are
`Option`-typed; `node.get(field, default)` is `Option.getD`.  `parent` is the
field used by judge_journal.py and plan_judge.py, `parent_id` the one used by
journal_viz_.py after its reparenting step. -/

/-- An LLM judgment record `\x7bstatus, reason\x7d`. -/
structure Judgment where
  status : String
  reason : String
deriving DecidableEq, Repr

/-- One node (step) of a journal. -/
structure Node where
  id : String
  step : Nat := 0
  code : Option String := none
  plan : Option String := none
  parent : Option String := none
  parent_id : Option String := none
  children : List String := []
  llm_judgment : Option Judgment := none
deriving DecidableEq, Repr

/-! ## C1: tree reconstruction (judge_journal.build_tree_structure)

`node2parent` is a JSON object, modelled as an association list of
(child id, parent id) pairs whose keys are distinct. -/

/-- `parent_map.get(node_id)`: the parent recorded for `cid` by the index. -/
def parent_map_lookup (n2p : List (String × String)) (cid : String) : Option String :=
  (n2p.find? (fun pr => pr.1 == cid)).map Prod.snd

/-- `children_map[pid]`: the child ids the index maps to `pid`, in index
order (the order the Python defaultdict accumulates them). -/
def children_of (n2p : List (String × String)) (pid : String) : List String :=
  (n2p.filter (fun pr => pr.2 == pid)).map Prod.fst

/-- Loop body of `build_tree_structure`: overwrite one node's `parent` from
the index (null when the id is not a key) and its `children` with the sorted
list of ids mapping to it. -/
def rebuildNode (n2p : List (String × String)) (node : Node) : Node :=
  { node with
    parent := parent_map_lookup n2p node.id,
    children := sortStr (children_of n2p node.id) }

/-- `build_tree_structure(steps, node2parent)` from judge_journal.py (the
same parent/children assignment is performed by
update_tree_structure.update_journal_file). -/
def build_tree_structure (steps : List Node) (n2p : List (String × String)) : List Node :=
  steps.map (rebuildNode n2p)

@[simp]
theorem rebuildNode_id (n2p : List (String × String)) (node : Node) :
    (rebuildNode n2p node).id = node.id := rfl

@[simp]
theorem rebuildNode_parent (n2p : List (String × String)) (node : Node) :
    (rebuildNode n2p node).parent = parent_map_lookup n2p node.id := rfl

@[simp]
theorem rebuildNode_children (n2p : List (String × String)) (node : Node) :
    (rebuildNode n2p node).children = sortStr (children_of n2p node.id) := rfl

/-- The invariant claimed for the reconstructed tree: every node other than
the root has a parent that is some node of the set, and a node with parent
`P` occurs in `P.children` exactly once. -/
def treeInvariantC1 (result : List Node) (rootId : String) : Prop :=
  (∀ N ∈ result, N.id ≠ rootId → ∃ P ∈ result, N.parent = some P.id) ∧
  (∀ N ∈ result, ∀ P ∈ result, N.parent = some P.id → P.children.count N.id = 1)

instance treeInvariantC1.instDecidable (result : List Node) (rootId : String) :
    Decidable (treeInvariantC1 result rootId) := by
  unfold treeInvariantC1
  infer_instance

theorem parent_map_lookup_mem {n2p : List (String × String)} {cid p : String}
    (h : parent_map_lookup n2p cid = some p) : (cid, p) ∈ n2p := by
  unfold parent_map_lookup at h
  cases hf : n2p.find? (fun pr => pr.1 == cid) with
  | none => rw [hf] at h; cases h
  | some pr =>
    rw [hf] at h
    have hmem := List.mem_of_find?_eq_some hf
    have hp := List.find?_some hf
    simp only [beq_iff_eq] at hp
    have hsnd : pr.2 = p := by simpa using h
    have : pr = (cid, p) := by
      obtain ⟨a, b⟩ := pr
      simp_all
    rw [this] at hmem
    exact hmem

theorem parent_map_lookup_isSome {n2p : List (String × String)} {cid : String}
    (h : cid ∈ n2p.map Prod.fst) : ∃ p, parent_map_lookup n2p cid = some p := by
  obtain ⟨pr, hpr, hfst⟩ := List.mem_map.mp h
  have : (n2p.find? (fun q => q.1 == cid)).isSome = true :=
    List.find?_isSome.mpr ⟨pr, hpr, by simp [hfst]⟩
  obtain ⟨q, hq⟩ := Option.isSome_iff_exists.mp this
  exact ⟨q.2, by simp [parent_map_lookup, hq]⟩

theorem children_of_count_zero {n2p : List (String × String)} {cid : String}
    (h : cid ∉ n2p.map Prod.fst) (pid : String) :
    (children_of n2p pid).count cid = 0 := by
  rw [List.count_eq_zero]
  intro hmem
  unfold children_of at hmem
  obtain ⟨pr, hpr, hfst⟩ := List.mem_map.mp hmem
  exact h (List.mem_map.mpr ⟨pr, (List.mem_filter.mp hpr).1, hfst⟩)

theorem count_children_of {n2p : List (String × String)}
    (hkeys : (n2p.map Prod.fst).Nodup) {cid pid : String}
    (hmem : (cid, pid) ∈ n2p) :
    (children_of n2p pid).count cid = 1 := by
  induction n2p with
  | nil => cases hmem
  | cons hd tl ih =>
    obtain ⟨k, v⟩ := hd
    simp only [List.map_cons, List.nodup_cons] at hkeys
    obtain ⟨hknot, htlnodup⟩ := hkeys
    rcases List.mem_cons.mp hmem with heq | htl
    · obtain ⟨hc, hv⟩ : cid = k ∧ pid = v := by
        have := heq
        simp only [Prod.mk.injEq] at this
        exact this
      subst hc; subst hv
      have hzero : (children_of tl pid).count cid = 0 :=
        children_of_count_zero hknot pid
      unfold children_of at hzero ⊢
      simp [List.filter_cons, List.count_cons, hzero]
    · have hcid_tl : cid ∈ tl.map Prod.fst :=
        List.mem_map.mpr ⟨(cid, pid), htl, rfl⟩
      have hkcid : k ≠ cid := fun hk => hknot (hk ▸ hcid_tl)
      have hone := ih htlnodup htl
      by_cases hv : v = pid
      · simp [children_of, List.filter_cons, hv, List.count_cons, hkcid] at hone ⊢
        simpa [children_of] using hone
      · simp [children_of, List.filter_cons, hv, List.count_cons] at hone ⊢
        simpa [children_of] using hone

/-- C1 counterexample input: two nodes and an index whose parent value
`"C"` is not the id of any node. -/
def c1Steps : List Node := [{ id := "A" }, { id := "B" }]

/-- C1 counterexample index (non-empty, as the claim requires). -/
def c1Index : List (String × String) := [("B", "C")]

/-- C1 (counterexample): reconstruction from the non-empty index
`\x7bB: C\x7d` over nodes `A, B` leaves node `B` with parent `C`, which is not
in the node set, so no choice of root makes the claimed invariant hold.
`build_tree_structure` never checks that an index value is the id of a
loaded node. -/
theorem c1_dangling_parent_counterexample :
    c1Index ≠ [] ∧
      ¬ ∃ rootId, treeInvariantC1 (build_tree_structure c1Steps c1Index) rootId := by
  refine ⟨by decide, ?_⟩
  rintro ⟨r, h1, _⟩
  have hres : build_tree_structure c1Steps c1Index =
      [{ id := "A" }, { id := "B", parent := some "C" }] := by decide
  by_cases hr : r = "B"
  · subst hr
    obtain ⟨P, hP, hpar⟩ :=
      h1 { id := "A" } (by rw [hres]; exact List.mem_cons_self _ _) (by decide)
    exact Option.noConfusion hpar
  · obtain ⟨P, hP, hpar⟩ :=
      h1 { id := "B", parent := some "C" }
        (by rw [hres]; exact List.mem_cons.mpr (Or.inr (List.mem_cons_self _ _)))
        (by simpa using Ne.symm hr)
    have hPid : P.id = "C" := by
      simpa using hpar.symm
    rw [hres] at hP
    rcases List.mem_cons.mp hP with h | h
    · rw [h] at hPid; exact absurd hPid (by decide)
    · have : P = { id := "B", parent := some "C" } := by simpa using h
      rw [this] at hPid; exact absurd hPid (by decide)

/-- C1 (amended): the invariant does hold provided the index is well formed:
its keys are distinct (true of a JSON object), every parent value it records
is the id of a loaded node, and every node except the designated root is a
key of the index.  Then after reconstruction every non-root node has a
non-null parent that is a node of the set, and any node appears in its
parent's children list exactly once. -/
theorem c1_tree_invariant_wellformed (steps : List Node)
    (n2p : List (String × String)) (rootId : String)
    (hkeys : (n2p.map Prod.fst).Nodup)
    (hvals : ∀ pr ∈ n2p, pr.2 ∈ steps.map Node.id)
    (hcover : ∀ N ∈ steps, N.id ≠ rootId → N.id ∈ n2p.map Prod.fst) :
    treeInvariantC1 (build_tree_structure steps n2p) rootId := by
  constructor
  · intro N hN hNroot
    obtain ⟨M, hM, rfl⟩ := List.mem_map.mp hN
    have hid : M.id ∈ n2p.map Prod.fst := by
      refine hcover M hM ?_
      simpa using hNroot
    obtain ⟨p, hp⟩ := parent_map_lookup_isSome hid
    have hpmem := parent_map_lookup_mem hp
    have hpid := hvals _ hpmem
    obtain ⟨P0, hP0, hP0id⟩ := List.mem_map.mp hpid
    refine ⟨rebuildNode n2p P0, List.mem_map_of_mem _ hP0, ?_⟩
    simp [hp, hP0id]
  · intro N hN P hP hpar
    obtain ⟨M, hM, rfl⟩ := List.mem_map.mp hN
    obtain ⟨Q, hQ, rfl⟩ := List.mem_map.mp hP
    simp only [rebuildNode_parent, rebuildNode_id] at hpar
    have hpmem := parent_map_lookup_mem hpar
    have hcount := count_children_of hkeys hpmem
    simp only [rebuildNode_children, rebuildNode_id]
    have hperm := List.perm_insertionSort
      (fun a b => charListLe a.toList b.toList = true) (children_of n2p Q.id)
    unfold sortStr
    rw [hperm.count_eq]
    exact hcount

/-- C1 witness: a concrete well-formed journal (`B`'s parent is `A`, root
`A`) on which the amended invariant is established by the theorem. -/
theorem c1_tree_invariant_wellformed_witness :
    treeInvariantC1
      (build_tree_structure [{ id := "A" }, { id := "B" }] [("B", "A")]) "A" :=
  c1_tree_invariant_wellformed _ _ _ (by decide) (by decide) (by decide)

/-! ## Insertion-ordered grouping maps

Python `defaultdict(list)` with `d[k].append(v)` in a loop is modelled as an
association list: `upsert` appends `v` to the bucket of `k`, creating the
bucket at the end on first sight of `k` (Python dict insertion order). -/

/-- Append `v` to the bucket of `k`, creating it at the end if absent. -/
def upsert {γ δ : Type} [DecidableEq γ] :
    List (γ × List δ) → γ → δ → List (γ × List δ)
  | [], k, v => [(k, [v])]
  | (k2, vs) :: rest, k, v =>
    if k2 = k then (k2, vs ++ [v]) :: rest else (k2, vs) :: upsert rest k v

/-- A grouping loop `for b in l: if sel b is some (k, v): d[k].append(v)`
starting from the accumulated map `m`. -/
def optFoldFrom {β γ δ : Type} [DecidableEq γ] (sel : β → Option (γ × δ))
    (m : List (γ × List δ)) (l : List β) : List (γ × List δ) :=
  l.foldl (fun acc b =>
    match sel b with
    | some kv => upsert acc kv.1 kv.2
    | none => acc) m

/-- The grouping loop starting from the empty map. -/
def optFold {β γ δ : Type} [DecidableEq γ] (sel : β → Option (γ × δ))
    (l : List β) : List (γ × List δ) :=
  optFoldFrom sel [] l

theorem upsert_flatten_perm {γ δ : Type} [DecidableEq γ]
    (m : List (γ × List δ)) (k : γ) (v : δ) :
    (((upsert m k v).map Prod.snd).flatten).Perm
      (v :: (m.map Prod.snd).flatten) := by
  induction m with
  | nil => simp [upsert]
  | cons hd rest ih =>
    obtain ⟨k2, vs⟩ := hd
    by_cases hk : k2 = k
    · simp only [upsert, if_pos hk, List.map_cons, List.flatten_cons]
      rw [List.append_assoc]
      exact List.perm_middle.trans (List.Perm.refl _)
    · simp only [upsert, if_neg hk, List.map_cons, List.flatten_cons]
      exact (ih.append_left vs).trans List.perm_middle

theorem optFoldFrom_flatten_perm {β γ δ : Type} [DecidableEq γ]
    (sel : β → Option (γ × δ)) (l : List β) :
    ∀ m : List (γ × List δ),
      (((optFoldFrom sel m l).map Prod.snd).flatten).Perm
        ((m.map Prod.snd).flatten ++
          l.filterMap (fun b => (sel b).map Prod.snd)) := by
  induction l with
  | nil => intro m; simp [optFoldFrom]
  | cons b l ih =>
    intro m
    cases hsel : sel b with
    | none =>
      have hstep : optFoldFrom sel m (b :: l) = optFoldFrom sel m l := by
        simp [optFoldFrom, List.foldl_cons, hsel]
      rw [hstep]
      simpa [hsel] using ih m
    | some kv =>
      obtain ⟨k, v⟩ := kv
      have hstep : optFoldFrom sel m (b :: l) =
          optFoldFrom sel (upsert m k v) l := by
        simp [optFoldFrom, List.foldl_cons, hsel]
      rw [hstep]
      refine (ih _).trans ?_
      refine ((upsert_flatten_perm m k v).append_right _).trans ?_
      have hfm : (b :: l).filterMap (fun b => (sel b).map Prod.snd) =
          v :: l.filterMap (fun b => (sel b).map Prod.snd) := by
        simp [List.filterMap_cons, hsel]
      rw [hfm, List.cons_append]
      exact List.perm_middle.symm

theorem upsert_mem_val {γ δ : Type} [DecidableEq γ]
    {m : List (γ × List δ)} {k k2 : γ} {v : δ} {g : List δ}
    (hmem : (k2, g) ∈ upsert m k v) :
    ∀ x ∈ g, (∃ g0, (k2, g0) ∈ m ∧ x ∈ g0) ∨ (k2 = k ∧ x = v) := by
  induction m with
  | nil =>
    intro x hx
    simp [upsert] at hmem
    obtain ⟨hk, hg⟩ := hmem
    subst hk; subst hg
    right
    simpa using hx
  | cons hd rest ih =>
    obtain ⟨k3, vs⟩ := hd
    intro x hx
    by_cases hk : k3 = k
    · simp only [upsert, if_pos hk] at hmem
      rcases List.mem_cons.mp hmem with hhd | htl
      · obtain ⟨he1, he2⟩ : k2 = k3 ∧ g = vs ++ [v] := by
          simpa [Prod.ext_iff] using hhd
        subst he1; subst he2
        rcases List.mem_append.mp hx with hvs | hv
        · exact Or.inl ⟨vs, List.mem_cons_self _ _, hvs⟩
        · right
          exact ⟨hk, by simpa using hv⟩
      · exact Or.inl ⟨g, List.mem_cons_of_mem _ htl, hx⟩
    · simp only [upsert, if_neg hk] at hmem
      rcases List.mem_cons.mp hmem with hhd | htl
      · obtain ⟨he1, he2⟩ : k2 = k3 ∧ g = vs := by
          simpa [Prod.ext_iff] using hhd
        subst he1; subst he2
        exact Or.inl ⟨g, List.mem_cons_self _ _, hx⟩
      · rcases ih htl x hx with ⟨g0, hg0, hxg0⟩ | hright
        · exact Or.inl ⟨g0, List.mem_cons_of_mem _ hg0, hxg0⟩
        · exact Or.inr hright

theorem optFoldFrom_mem_val {β γ δ : Type} [DecidableEq γ]
    (sel : β → Option (γ × δ)) (Q : γ → δ → Prop) (l : List β) :
    ∀ m : List (γ × List δ),
      (∀ k g, (k, g) ∈ m → ∀ x ∈ g, Q k x) →
      (∀ b ∈ l, ∀ k v, sel b = some (k, v) → Q k v) →
      ∀ k g, (k, g) ∈ optFoldFrom sel m l → ∀ x ∈ g, Q k x := by
  induction l with
  | nil =>
    intro m hm _ k g hmem x hx
    exact hm k g (by simpa [optFoldFrom] using hmem) x hx
  | cons b l ih =>
    intro m hm hl k g hmem x hx
    cases hsel : sel b with
    | none =>
      have hstep : optFoldFrom sel m (b :: l) = optFoldFrom sel m l := by
        simp [optFoldFrom, List.foldl_cons, hsel]
      rw [hstep] at hmem
      exact ih m hm (fun b2 hb2 => hl b2 (List.mem_cons_of_mem _ hb2)) k g hmem x hx
    | some kv =>
      obtain ⟨k0, v0⟩ := kv
      have hstep : optFoldFrom sel m (b :: l) =
          optFoldFrom sel (upsert m k0 v0) l := by
        simp [optFoldFrom, List.foldl_cons, hsel]
      rw [hstep] at hmem
      refine ih (upsert m k0 v0) ?_ (fun b2 hb2 => hl b2 (List.mem_cons_of_mem _ hb2))
        k g hmem x hx
      intro k2 g2 hg2 y hy
      rcases upsert_mem_val hg2 y hy with ⟨g0, hg0, hyg0⟩ | ⟨hkk, hyv⟩
      · exact hm k2 g0 hg0 y hyg0
      · subst hkk; subst hyv
        exact hl b (List.mem_cons_self _ _) _ _ hsel

theorem upsert_found {γ δ : Type} [DecidableEq γ]
    (m : List (γ × List δ)) (k : γ) (v : δ) :
    ∃ g, (k, g) ∈ upsert m k v ∧ v ∈ g := by
  induction m with
  | nil => exact ⟨[v], by simp [upsert], by simp⟩
  | cons hd rest ih =>
    obtain ⟨k3, vs⟩ := hd
    by_cases hk : k3 = k
    · subst hk
      exact ⟨vs ++ [v], by simp [upsert], by simp⟩
    · obtain ⟨g, hg, hv⟩ := ih
      exact ⟨g, by simp [upsert, hk, List.mem_cons_of_mem, hg], hv⟩

theorem upsert_preserve {γ δ : Type} [DecidableEq γ]
    {m : List (γ × List δ)} {k2 : γ} {g : List δ} {x : δ}
    (hmem : (k2, g) ∈ m) (hx : x ∈ g) (k : γ) (v : δ) :
    ∃ g2, (k2, g2) ∈ upsert m k v ∧ x ∈ g2 := by
  induction m with
  | nil => cases hmem
  | cons hd rest ih =>
    obtain ⟨k3, vs⟩ := hd
    by_cases hk : k3 = k
    · rcases List.mem_cons.mp hmem with hhd | htl
      · obtain ⟨he1, he2⟩ : k2 = k3 ∧ g = vs := by
          simpa [Prod.ext_iff] using hhd
        subst he1; subst he2
        exact ⟨g ++ [v], by simp [upsert, hk], List.mem_append_left _ hx⟩
      · exact ⟨g, by simp [upsert, hk, List.mem_cons_of_mem, htl], hx⟩
    · rcases List.mem_cons.mp hmem with hhd | htl
      · obtain ⟨he1, he2⟩ : k2 = k3 ∧ g = vs := by
          simpa [Prod.ext_iff] using hhd
        subst he1; subst he2
        exact ⟨g, by simp [upsert, hk], hx⟩
      · obtain ⟨g2, hg2, hx2⟩ := ih htl
        exact ⟨g2, by simp [upsert, hk, List.mem_cons_of_mem, hg2], hx2⟩

theorem optFoldFrom_preserve {β γ δ : Type} [DecidableEq γ]
    (sel : β → Option (γ × δ)) (l : List β) :
    ∀ {m : List (γ × List δ)} {k : γ} {g : List δ} {x : δ},
      (k, g) ∈ m → x ∈ g →
      ∃ g2, (k, g2) ∈ optFoldFrom sel m l ∧ x ∈ g2 := by
  induction l with
  | nil => intro m k g x hmem hx; exact ⟨g, by simpa [optFoldFrom] using hmem, hx⟩
  | cons b l ih =>
    intro m k g x hmem hx
    cases hsel : sel b with
    | none =>
      have hstep : optFoldFrom sel m (b :: l) = optFoldFrom sel m l := by
        simp [optFoldFrom, List.foldl_cons, hsel]
      rw [hstep]
      exact ih hmem hx
    | some kv =>
      obtain ⟨k0, v0⟩ := kv
      have hstep : optFoldFrom sel m (b :: l) =
          optFoldFrom sel (upsert m k0 v0) l := by
        simp [optFoldFrom, List.foldl_cons, hsel]
      rw [hstep]
      obtain ⟨g2, hg2, hx2⟩ := upsert_preserve hmem hx k0 v0
      exact ih hg2 hx2

theorem optFoldFrom_found {β γ δ : Type} [DecidableEq γ]
    (sel : β → Option (γ × δ)) {b : β} {k : γ} {v : δ} (l : List β) :
    ∀ m : List (γ × List δ), b ∈ l → sel b = some (k, v) →
      ∃ g, (k, g) ∈ optFoldFrom sel m l ∧ v ∈ g := by
  induction l with
  | nil => intro m hb; cases hb
  | cons b2 l ih =>
    intro m hb hsel
    rcases List.mem_cons.mp hb with hhd | htl
    · subst hhd
      have hstep : optFoldFrom sel m (b :: l) =
          optFoldFrom sel (upsert m k v) l := by
        simp [optFoldFrom, List.foldl_cons, hsel]
      rw [hstep]
      obtain ⟨g, hg, hv⟩ := upsert_found m k v
      exact optFoldFrom_preserve sel l hg hv
    · cases hsel2 : sel b2 with
      | none =>
        have hstep : optFoldFrom sel m (b2 :: l) = optFoldFrom sel m l := by
          simp [optFoldFrom, List.foldl_cons, hsel2]
        rw [hstep]
        exact ih m htl hsel
      | some kv2 =>
        have hstep : optFoldFrom sel m (b2 :: l) =
            optFoldFrom sel (upsert m kv2.1 kv2.2) l := by
          simp [optFoldFrom, List.foldl_cons, hsel2]
        rw [hstep]
        exact ih _ htl hsel

theorem filterMap_some_eq_map {α β : Type} (f : α → β) (l : List α) :
    l.filterMap (fun a => some (f a)) = l.map f := by
  induction l with
  | nil => rfl
  | cons a l ih => simp [List.filterMap_cons, ih]

/-! ## C3: structural redundancy detection (journal_viz_.py)

Python `ast.parse` followed by `ast.dump(tree, annotate_fields=False)` is an
external parser; it is the parameter `pa`: `pa code = some dump` when the
code parses, `none` when parsing raises. -/

/-- `get_ast_logic(code_str)`: the canonical AST dump, or the raw code text
as fallback when parsing fails. -/
def get_ast_logic (pa : String → Option String) (code : String) : String :=
  match pa code with
  | some d => d
  | none => code

/-- Selector for the siblings map: a node is grouped under its `parent_id`
when that field is present, truthy (non-empty) and not `SUPER_ROOT`. -/
def siblingSel (n : Node) : Option (String × Node) :=
  match n.parent_id with
  | some pid => if pid ≠ "" ∧ pid ≠ "SUPER_ROOT" then some (pid, n) else none
  | none => none

/-- The `siblings_map` defaultdict of `analyze_code_redundancy`. -/
def siblings_map (nodes : List Node) : List (String × List Node) :=
  optFold siblingSel nodes

/-- The per-parent `groups` defaultdict: children keyed by the fingerprint
of their code (`child.get('code', "")`). -/
def fpGroups (pa : String → Option String) (children : List Node) :
    List (String × List String) :=
  optFold (fun c => some (get_ast_logic pa (c.code.getD ""), c.id)) children

/-- Loop of `analyze_code_redundancy` over the siblings map: for each parent
with at least two children, keep the fingerprint groups that have more than
one member; record the parent only when such a group exists. -/
def redundancyLoop (pa : String → Option String) :
    List (String × List Node) → List (String × List (List String))
  | [] => []
  | (pid, children) :: rest =>
    if children.length < 2 then redundancyLoop pa rest
    else if (((fpGroups pa children).map Prod.snd).filter
        (fun g => 1 < g.length)).isEmpty then
      redundancyLoop pa rest
    else
      (pid, ((fpGroups pa children).map Prod.snd).filter
        (fun g => 1 < g.length)) :: redundancyLoop pa rest

/-- `analyze_code_redundancy(nodes)` from journal_viz_.py. -/
def analyze_code_redundancy (pa : String → Option String) (nodes : List Node) :
    List (String × List (List String)) :=
  redundancyLoop pa (siblings_map nodes)

theorem redundancyLoop_mem {pa : String → Option String}
    {pairs : List (String × List Node)} {pid : String} {gs : List (List String)}
    (h : (pid, gs) ∈ redundancyLoop pa pairs) :
    ∃ children, (pid, children) ∈ pairs ∧ 2 ≤ children.length ∧
      gs = ((fpGroups pa children).map Prod.snd).filter (fun g => 1 < g.length) ∧
      gs ≠ [] := by
  induction pairs with
  | nil => cases h
  | cons hd rest ih =>
    obtain ⟨p2, children⟩ := hd
    by_cases hlen : children.length < 2
    · rw [show redundancyLoop pa ((p2, children) :: rest) = redundancyLoop pa rest
        from by simp [redundancyLoop, if_pos hlen]] at h
      obtain ⟨cs, h1, h2, h3, h4⟩ := ih h
      exact ⟨cs, List.mem_cons_of_mem _ h1, h2, h3, h4⟩
    · by_cases hde : (((fpGroups pa children).map Prod.snd).filter
          (fun g => 1 < g.length)).isEmpty
      · rw [show redundancyLoop pa ((p2, children) :: rest) = redundancyLoop pa rest
          from by simp [redundancyLoop, if_neg hlen, hde]] at h
        obtain ⟨cs, h1, h2, h3, h4⟩ := ih h
        exact ⟨cs, List.mem_cons_of_mem _ h1, h2, h3, h4⟩
      · rw [show redundancyLoop pa ((p2, children) :: rest) =
            (p2, ((fpGroups pa children).map Prod.snd).filter
              (fun g => 1 < g.length)) :: redundancyLoop pa rest
          from by simp [redundancyLoop, if_neg hlen, hde]] at h
        rcases List.mem_cons.mp h with hhd | htl
        · obtain ⟨he1, he2⟩ : pid = p2 ∧ gs = ((fpGroups pa children).map Prod.snd).filter
              (fun g => 1 < g.length) := by
            simpa [Prod.ext_iff] using hhd
          subst he1; subst he2
          refine ⟨children, List.mem_cons_self _ _, Nat.le_of_not_lt hlen, rfl, ?_⟩
          intro hnil
          rw [hnil] at hde
          exact hde rfl
        · obtain ⟨cs, h1, h2, h3, h4⟩ := ih htl
          exact ⟨cs, List.mem_cons_of_mem _ h1, h2, h3, h4⟩

/-- C3: the structural redundancy detector (i) fingerprints code by its AST
dump, (ii) falls back to the raw code text when parsing fails, (iii) drops
no sibling: the fingerprint groups of a sibling set partition exactly the
ids of all its members, (iv) considers every node whose parent is present
and non-synthetic, and (v) emits, keyed by the shared parent id, exactly
the groups of two or more members, each group holding ids of siblings of
that parent that share one fingerprint.  The whole computation is a pure
function of the sibling sets (no oracle parameter beyond the parser). -/
theorem c3_structural_redundancy (pa : String → Option String) (nodes : List Node) :
    (∀ c d, pa c = some d → get_ast_logic pa c = d) ∧
    (∀ c, pa c = none → get_ast_logic pa c = c) ∧
    (∀ pid children, (pid, children) ∈ siblings_map nodes →
      (((fpGroups pa children).map Prod.snd).flatten).Perm (children.map Node.id)) ∧
    (∀ n ∈ nodes, ∀ p, n.parent_id = some p → p ≠ "" → p ≠ "SUPER_ROOT" →
      ∃ children, (p, children) ∈ siblings_map nodes ∧ n ∈ children) ∧
    (∀ pid gs, (pid, gs) ∈ analyze_code_redundancy pa nodes →
      gs ≠ [] ∧
      ∃ children, (pid, children) ∈ siblings_map nodes ∧ 2 ≤ children.length ∧
        ∀ g ∈ gs, 2 ≤ g.length ∧
          ∃ f, ∀ i ∈ g, ∃ c ∈ children, c.id = i ∧
            get_ast_logic pa (c.code.getD "") = f) := by
  refine ⟨?_, ?_, ?_, ?_, ?_⟩
  · intro c d h; simp [get_ast_logic, h]
  · intro c h; simp [get_ast_logic, h]
  · intro pid children _
    have hperm := optFoldFrom_flatten_perm
      (fun c => some (get_ast_logic pa (c.code.getD ""), c.id)) children []
    simp only [List.map_nil, List.flatten_nil, List.nil_append] at hperm
    have hfm : children.filterMap
        (fun b => ((some (get_ast_logic pa (b.code.getD ""), b.id)).map Prod.snd)) =
        children.map Node.id := by
      have := filterMap_some_eq_map (fun b : Node => b.id) children
      simpa using this
    rw [hfm] at hperm
    exact hperm
  · intro n hn p hp h1 h2
    have hsel : siblingSel n = some (p, n) := by
      simp [siblingSel, hp, h1, h2]
    obtain ⟨g, hg, hng⟩ := optFoldFrom_found siblingSel nodes [] hn hsel
    exact ⟨g, hg, hng⟩
  · intro pid gs h
    obtain ⟨children, hmem, hlen, hgs, hne⟩ := redundancyLoop_mem h
    refine ⟨hne, children, hmem, hlen, ?_⟩
    intro g hg
    rw [hgs] at hg
    obtain ⟨hgmem, hglen⟩ := List.mem_filter.mp hg
    constructor
    · have : 1 < g.length := by simpa using hglen
      omega
    · obtain ⟨pr, hpr, hprsnd⟩ := List.mem_map.mp hgmem
      obtain ⟨f, gg⟩ := pr
      have hgg : gg = g := hprsnd
      subst hgg
      refine ⟨f, ?_⟩
      intro i hi
      simp only [fpGroups, optFold] at hpr
      have hQ := optFoldFrom_mem_val
        (fun c => some (get_ast_logic pa (c.code.getD ""), c.id))
        (fun k x => ∃ c ∈ children, c.id = x ∧ get_ast_logic pa (c.code.getD "") = k)
        children [] (by intro k g2 hg2 x hx; cases hg2)
        (by
          intro b hb k v hsel
          obtain ⟨hk, hv⟩ : get_ast_logic pa (b.code.getD "") = k ∧ b.id = v := by
            simpa [Prod.ext_iff] using hsel
          exact ⟨b, hb, hv, hk⟩)
        f gg hpr
      exact hQ i hi

/-- A concrete parser for the C3 witness: only the snippet `x=1` parses. -/
def paW : String → Option String :=
  fun c => if c = "x=1" then some "Module AST of x=1" else none

/-- C3 witness journal: two siblings of parent `A` with identical code. -/
def nodesW : List Node :=
  [{ id := "B", parent_id := some "A", code := some "x=1" },
   { id := "C", parent_id := some "A", code := some "x=1" }]

/-- C3 witness: on the witness journal the detector reports the pair
`B, C` under parent `A`, and the fingerprint groups of that sibling set
partition exactly the sibling ids (no sibling dropped). -/
theorem c3_structural_redundancy_witness :
    analyze_code_redundancy paW nodesW = [("A", [["B", "C"]])] ∧
    (((fpGroups paW nodesW).map Prod.snd).flatten).Perm (nodesW.map Node.id) :=
  ⟨by decide, (c3_structural_redundancy paW nodesW).2.2.1 "A" nodesW (by decide)⟩

/-! ## C8: side-by-side diff renderer (journal_viz_.py)

`difflib.ndiff` is an external line differ; it is the parameter `nd`, a
function from the two line lists to the tagged diff lines.  The renderer
only inspects the two-character tag of each line. -/

/-- One escaping pass of `content.replace("&","&amp;").replace("<","&lt;")
.replace(">","&gt;")`. -/
def htmlEscape (s : String) : String :=
  strReplace (strReplace (strReplace s "&" "&amp;") "<" "&lt;") ">" "&gt;"

/-- The two rendered line streams. -/
structure DiffSides where
  left : List String
  right : List String
deriving DecidableEq, Repr

/-- An ordinary content row. -/
def diffRow (content : String) : String :=
  "<div class=\"diff-row\">" ++ content ++ "</div>"

/-- A removed-content row (left side). -/
def diffRowRemoved (content : String) : String :=
  "<div class=\"diff-row diff-removed\">" ++ content ++ "</div>"

/-- An added-content row (right side). -/
def diffRowAdded (content : String) : String :=
  "<div class=\"diff-row diff-added\">" ++ content ++ "</div>"

/-- The placeholder row emitted opposite a removal or addition. -/
def diffRowEmpty : String :=
  "<div class=\"diff-row empty\">&nbsp;</div>"

/-- Loop body of `generate_side_by_side_diff`: dispatch on the two-character
diff tag; any other tag (such as the `? ` hint lines `ndiff` can emit)
contributes to neither side. -/
def diffStep (acc : DiffSides) (line : String) : DiffSides :=
  let content := htmlEscape (line.drop 2)
  if line.take 2 = "  " then
    { left := acc.left ++ [diffRow content], right := acc.right ++ [diffRow content] }
  else if line.take 2 = "- " then
    { left := acc.left ++ [diffRowRemoved content], right := acc.right ++ [diffRowEmpty] }
  else if line.take 2 = "+ " then
    { left := acc.left ++ [diffRowEmpty], right := acc.right ++ [diffRowAdded content] }
  else acc

/-- `generate_side_by_side_diff(code_a, code_b)`: null degrades to the empty
string, the codes are split into lines, diffed by `nd`, and rendered into
two parallel row streams. -/
def generate_side_by_side_diff (nd : List String → List String → List String)
    (code_a code_b : Option String) : DiffSides :=
  let lines_a := splitlines (code_a.getD "")
  let lines_b := splitlines (code_b.getD "")
  (nd lines_a lines_b).foldl diffStep { left := [], right := [] }

theorem diffStep_foldl_parity (lines : List String) :
    ∀ acc : DiffSides, acc.left.length = acc.right.length →
      ((lines.foldl diffStep acc).left).length = ((lines.foldl diffStep acc).right).length := by
  induction lines with
  | nil => intro acc h; simpa using h
  | cons line rest ih =>
    intro acc h
    rw [List.foldl_cons]
    refine ih (diffStep acc line) ?_
    unfold diffStep
    by_cases h1 : line.take 2 = "  "
    · simp [h1, h]
    · by_cases h2 : line.take 2 = "- "
      · simp [h1, h2, h]
      · by_cases h3 : line.take 2 = "+ "
        · simp [h1, h2, h3, h]
        · simp [h1, h2, h3, h]

/-- C8: for any external line differ and any pair of (possibly null) code
strings, the rendered left and right streams have equal length; an
unchanged line contributes one content row to each side, a removed line a
content row on the left paired with one placeholder row on the right, an
added line one placeholder row on the left paired with a content row on the
right, and null input degrades to the empty string. -/
theorem c8_diff_parity (nd : List String → List String → List String)
    (code_a code_b : Option String) :
    ((generate_side_by_side_diff nd code_a code_b).left).length =
      ((generate_side_by_side_diff nd code_a code_b).right).length ∧
    (∀ acc line, line.take 2 = "  " →
      diffStep acc line =
        { left := acc.left ++ [diffRow (htmlEscape (line.drop 2))],
          right := acc.right ++ [diffRow (htmlEscape (line.drop 2))] }) ∧
    (∀ acc line, line.take 2 = "- " →
      diffStep acc line =
        { left := acc.left ++ [diffRowRemoved (htmlEscape (line.drop 2))],
          right := acc.right ++ [diffRowEmpty] }) ∧
    (∀ acc line, line.take 2 = "+ " →
      diffStep acc line =
        { left := acc.left ++ [diffRowEmpty],
          right := acc.right ++ [diffRowAdded (htmlEscape (line.drop 2))] }) ∧
    generate_side_by_side_diff nd none code_b =
      generate_side_by_side_diff nd (some "") code_b ∧
    generate_side_by_side_diff nd code_a none =
      generate_side_by_side_diff nd code_a (some "") := by
  refine ⟨?_, ?_, ?_, ?_, rfl, rfl⟩
  · exact diffStep_foldl_parity _ { left := [], right := [] } rfl
  · intro acc line h1
    simp [diffStep, h1]
  · intro acc line h2
    have h1 : ¬ line.take 2 = "  " := by rw [h2]; decide
    simp [diffStep, h1, h2]
  · intro acc line h3
    have h1 : ¬ line.take 2 = "  " := by rw [h3]; decide
    have h2 : ¬ line.take 2 = "- " := by rw [h3]; decide
    simp [diffStep, h1, h2, h3]

/-- C8 witness: a concrete differ output exercising all three row kinds;
the theorem yields the parity of the two streams and the removed-line
pairing at a concrete row. -/
theorem c8_diff_parity_witness :
    ((generate_side_by_side_diff (fun _ _ => ["  same", "- old", "+ new", "? hint"])
        (some "a") (some "b")).left).length =
      ((generate_side_by_side_diff (fun _ _ => ["  same", "- old", "+ new", "? hint"])
        (some "a") (some "b")).right).length ∧
    diffStep { left := [], right := [] } "- old" =
      { left := [diffRowRemoved (htmlEscape "old")], right := [diffRowEmpty] } :=
  ⟨(c8_diff_parity (fun _ _ => ["  same", "- old", "+ new", "? hint"])
      (some "a") (some "b")).1,
   (c8_diff_parity (fun _ _ => ["  same", "- old", "+ new", "? hint"])
      (some "a") (some "b")).2.2.1 { left := [], right := [] } "- old" (by decide)⟩

/-! ## C5 and C6: the judgment pipeline (judge_journal.py)

`difflib.unified_diff` is the parameter `ud` from the two line lists to the
diff lines; the classifier is an oracle giving the response to the n-th
call, and calls are counted. -/

/-- The literal judgment assigned when the diff or the plan is blank. -/
def skippedJudgment : Judgment :=
  { status := "skipped", reason := "No meaningful code changes or plan." }

/-- Result of judging one node: the judgment stored on the node and the
number of classifier calls made for it. -/
structure JudgeOut where
  judgment : Judgment
  calls : Nat
deriving DecidableEq, Repr

/-- Judging step of judge_journal.main for a node that is not already
judged: join the unified diff of previous code (None degrades to empty)
against current code; if the stripped diff or the stripped plan is empty,
assign `skippedJudgment` with no call, else make one classifier call. -/
def judgeNode (ud : List String → List String → List String) (resp : Judgment)
    (prevCode : Option String) (step : Node) : JudgeOut :=
  let diff := joinLines
    (ud (splitlines (prevCode.getD "")) (splitlines (step.code.getD "")))
  if strip diff = "" ∨ strip (step.plan.getD "") = "" then
    { judgment := skippedJudgment, calls := 0 }
  else
    { judgment := resp, calls := 1 }

/-- `rejudge_entry(node, prev_code)` of fix_judgment_errors.py: the same
blank-diff/blank-plan skip rule, then a (retried) classifier call. -/
def rejudge_entry (ud : List String → List String → List String) (resp : Judgment)
    (prev_code : Option String) (node : Node) : JudgeOut :=
  let diff := joinLines
    (ud (splitlines (prev_code.getD "")) (splitlines (node.code.getD "")))
  if strip diff = "" ∨ strip (node.plan.getD "") = "" then
    { judgment := skippedJudgment, calls := 0 }
  else
    { judgment := resp, calls := 1 }

/-- The guard `'llm_judgment' in step and step['llm_judgment'].get('status')
!= 'error'` of judge_journal.main. -/
def alreadyJudged (step : Node) : Bool :=
  match step.llm_judgment with
  | some j => j.status != "error"
  | none => false

/-- The judging loop of judge_journal.main over the sorted steps, threading
the previous code and the classifier call counter. -/
def judgeLoop (ud : List String → List String → List String)
    (oracle : Nat → Judgment) :
    List Node → Option String → Nat → List Node × Nat
  | [], _, calls => ([], calls)
  | step :: rest, prevCode, calls =>
    if alreadyJudged step then
      let r := judgeLoop ud oracle rest (some (step.code.getD "")) calls
      (step :: r.1, r.2)
    else
      let out := judgeNode ud (oracle calls) prevCode step
      let r := judgeLoop ud oracle rest (some (step.code.getD "")) (calls + out.calls)
      ({ step with llm_judgment := some out.judgment } :: r.1, r.2)

/-- `steps.sort(key=lambda x: x.get('step', 0))`. -/
def sortSteps (steps : List Node) : List Node :=
  List.insertionSort (fun a b => a.step ≤ b.step) steps

/-- The judgment pass of judge_journal.main: sort by step number, then run
the judging loop with no previous code and a fresh call counter. -/
def judge_main_pass (ud : List String → List String → List String)
    (oracle : Nat → Judgment) (steps : List Node) : List Node × Nat :=
  judgeLoop ud oracle (sortSteps steps) none 0

/-- C5: whenever the stripped plan is empty or the joined unified diff is
blank, both judge_journal.main and fix_judgment_errors.rejudge_entry assign
exactly `\x7bstatus: skipped, reason: No meaningful code changes or plan.\x7d`
and make zero classifier calls; in particular (third conjunct) a node whose
plan is empty and whose code equals the previous code is skipped without
any call whenever the differ returns no lines on equal inputs. -/
theorem c5_skip_without_call (ud : List String → List String → List String)
    (resp : Judgment) (prev : Option String) (step : Node) :
    (strip (step.plan.getD "") = "" →
      judgeNode ud resp prev step = { judgment := skippedJudgment, calls := 0 } ∧
      rejudge_entry ud resp prev step = { judgment := skippedJudgment, calls := 0 }) ∧
    (strip (joinLines (ud (splitlines (prev.getD ""))
        (splitlines (step.code.getD "")))) = "" →
      judgeNode ud resp prev step = { judgment := skippedJudgment, calls := 0 } ∧
      rejudge_entry ud resp prev step = { judgment := skippedJudgment, calls := 0 }) ∧
    (ud (splitlines (prev.getD "")) (splitlines (prev.getD "")) = [] →
      step.code.getD "" = prev.getD "" →
      step.plan = some "" →
      judgeNode ud resp prev step = { judgment := skippedJudgment, calls := 0 } ∧
      rejudge_entry ud resp prev step = { judgment := skippedJudgment, calls := 0 }) := by
  refine ⟨?_, ?_, ?_⟩
  · intro h
    constructor
    · simp [judgeNode, h]
    · simp [rejudge_entry, h]
  · intro h
    constructor
    · simp [judgeNode, h]
    · simp [rejudge_entry, h]
  · intro hud hcode hplan
    constructor
    · simp [judgeNode, hcode, hud, hplan, joinLines, joinLinesChars, strip, stripChars]
    · simp [rejudge_entry, hcode, hud, hplan, joinLines, joinLinesChars, strip, stripChars]

/-- C5 witness: a concrete node with an empty plan and code identical to the
previous code, under a differ that returns no lines on equal inputs, is
assigned the skipped judgment with zero calls by both entry points. -/
theorem c5_skip_without_call_witness :
    judgeNode (fun a b => if a = b then [] else ["+ x"])
        { status := "aligned", reason := "r" } (some "x=1")
        { id := "S", code := some "x=1", plan := some "" } =
      { judgment := skippedJudgment, calls := 0 } ∧
    rejudge_entry (fun a b => if a = b then [] else ["+ x"])
        { status := "aligned", reason := "r" } (some "x=1")
        { id := "S", code := some "x=1", plan := some "" } =
      { judgment := skippedJudgment, calls := 0 } :=
  (c5_skip_without_call (fun a b => if a = b then [] else ["+ x"])
      { status := "aligned", reason := "r" } (some "x=1")
      { id := "S", code := some "x=1", plan := some "" }).2.2
    (by decide) (by decide) (by decide)

theorem judgeLoop_all_judged (ud : List String → List String → List String)
    (oracle : Nat → Judgment) :
    ∀ steps : List Node, (∀ s ∈ steps, alreadyJudged s = true) →
      ∀ prev calls, judgeLoop ud oracle steps prev calls = (steps, calls) := by
  intro steps
  induction steps with
  | nil => intro _ prev calls; rfl
  | cons step rest ih =>
    intro h prev calls
    have hstep : alreadyJudged step = true := h step (List.mem_cons_self _ _)
    have hrest := ih (fun s hs => h s (List.mem_cons_of_mem _ hs))
    simp [judgeLoop, hstep, hrest]

/-- C6: when every node already carries a non-error judgment, the judging
loop returns the steps unchanged with zero classifier calls, and the full
pass (which first sorts by step number) returns a permutation of the input
collection, likewise with zero calls. -/
theorem c6_judgment_idempotence (ud : List String → List String → List String)
    (oracle : Nat → Judgment) (steps : List Node)
    (h : ∀ s ∈ steps, alreadyJudged s = true) :
    (∀ prev calls, judgeLoop ud oracle steps prev calls = (steps, calls)) ∧
    judge_main_pass ud oracle steps = (sortSteps steps, 0) ∧
    ((judge_main_pass ud oracle steps).1).Perm steps ∧
    (judge_main_pass ud oracle steps).2 = 0 := by
  have hsorted : ∀ s ∈ sortSteps steps, alreadyJudged s = true := by
    intro s hs
    exact h s ((List.perm_insertionSort _ steps).mem_iff.mp hs)
  have hmain : judge_main_pass ud oracle steps = (sortSteps steps, 0) := by
    unfold judge_main_pass
    exact judgeLoop_all_judged ud oracle _ hsorted none 0
  refine ⟨judgeLoop_all_judged ud oracle steps h, hmain, ?_, ?_⟩
  · rw [hmain]
    exact List.perm_insertionSort _ steps
  · rw [hmain]

/-- C6 witness: a two-node journal in which both nodes already carry
non-error judgments; re-running the loop changes nothing and makes zero
calls, and the full pass permutes nothing away. -/
theorem c6_judgment_idempotence_witness :
    judgeLoop (fun _ _ => ["+ x"]) (fun _ => { status := "aligned", reason := "r" })
        [{ id := "A", step := 2, llm_judgment := some { status := "aligned", reason := "a" } },
         { id := "B", step := 1, llm_judgment := some { status := "skipped", reason := "b" } }]
        none 0 =
      ([{ id := "A", step := 2, llm_judgment := some { status := "aligned", reason := "a" } },
        { id := "B", step := 1, llm_judgment := some { status := "skipped", reason := "b" } }], 0) ∧
    ((judge_main_pass (fun _ _ => ["+ x"]) (fun _ => { status := "aligned", reason := "r" })
        [{ id := "A", step := 2, llm_judgment := some { status := "aligned", reason := "a" } },
         { id := "B", step := 1, llm_judgment := some { status := "skipped", reason := "b" } }]).1).Perm
      [{ id := "A", step := 2, llm_judgment := some { status := "aligned", reason := "a" } },
       { id := "B", step := 1, llm_judgment := some { status := "skipped", reason := "b" } }] :=
  ⟨(c6_judgment_idempotence _ _ _ (by decide)).1 none 0,
   (c6_judgment_idempotence _ _ _ (by decide)).2.2.1⟩

/-! ## C7: rate-limit retry with exponential backoff

`get_llm_response` (judge_journal.py) wraps the raw provider call, which
either returns a parsed judgment or raises; `call n` is the outcome of the
attempt with zero-based index `n`.  Each backoff sleep duration
(`2 ** attempt` seconds) is recorded in order. -/

/-- Outcome of one raw provider call: a parsed judgment, or an exception
with its message text. -/
inductive CallOutcome where
  | ok (j : Judgment)
  | exn (msg : String)
deriving DecidableEq, Repr

/-- A retry loop result: the returned judgment and the backoff sleeps
performed, in order. -/
structure RetryResult where
  result : Judgment
  sleeps : List Nat
deriving DecidableEq, Repr

/-- The `for attempt in range(max_retries)` loop of `get_llm_response`,
with `fuel` iterations left.  An exception whose text contains `429` before
the final attempt sleeps `2 ** attempt` and retries; any other exception
(or a final-attempt 429) returns an error judgment carrying the message.
The fall-through return is the unreachable `Unknown provider` error. -/
def get_llm_response_go (call : Nat → CallOutcome) (maxRetries : Nat) :
    Nat → Nat → List Nat → RetryResult
  | 0, _, sleeps =>
    { result := { status := "error", reason := "Unknown provider" }, sleeps := sleeps }
  | fuel + 1, attempt, sleeps =>
    match call attempt with
    | .ok j => { result := j, sleeps := sleeps }
    | .exn msg =>
      if strContains msg "429" && decide (attempt < maxRetries - 1) then
        get_llm_response_go call maxRetries fuel (attempt + 1) (sleeps ++ [2 ^ attempt])
      else
        { result := { status := "error", reason := msg }, sleeps := sleeps }

/-- `get_llm_response(sys_prompt, usr_prompt, max_retries)`. -/
def get_llm_response (call : Nat → CallOutcome) (maxRetries : Nat) : RetryResult :=
  get_llm_response_go call maxRetries maxRetries 0 []

/-- The loop of fix_judgment_errors.get_llm_response_with_retry: the inner
call is `get_llm_response`, which never raises; `inner n` is its n-th
result.  An error result whose reason contains `429` sleeps and retries
(even on the final attempt); exhaustion returns the literal
`Max retries exceeded for rate limit` error. -/
def with_retry_go (inner : Nat → Judgment) : Nat → Nat → List Nat → RetryResult
  | 0, _, sleeps =>
    { result := { status := "error", reason := "Max retries exceeded for rate limit" },
      sleeps := sleeps }
  | fuel + 1, attempt, sleeps =>
    let result := inner attempt
    if result.status == "error" && strContains result.reason "429" then
      with_retry_go inner fuel (attempt + 1) (sleeps ++ [2 ^ attempt])
    else
      { result := result, sleeps := sleeps }

/-- `get_llm_response_with_retry(sys_p, usr_p, max_retries)`. -/
def get_llm_response_with_retry (inner : Nat → Judgment) (maxRetries : Nat) : RetryResult :=
  with_retry_go inner maxRetries 0 []

/-- C7: with the default three attempts, when attempts 1 and 2 signal a
rate limit (a 429 in the error text) and attempt 3 succeeds, the recorded
judgment is exactly the attempt-3 result and the backoff sleeps are the two
exponentially doubling delays 2^0 and 2^1; when the final attempt also
fails, the loop returns an error-status judgment instead of raising
(keeping the pass alive).  The same holds for the targeted-pass wrapper
`get_llm_response_with_retry` (which on exhaustion reports its literal
max-retries reason after a third backoff sleep). -/
theorem c7_backoff_retry (call : Nat → CallOutcome) (inner : Nat → Judgment)
    (e0 e1 : String) (j : Judgment) :
    (call 0 = .exn e0 → strContains e0 "429" = true →
     call 1 = .exn e1 → strContains e1 "429" = true →
     call 2 = .ok j →
     get_llm_response call 3 = { result := j, sleeps := [1, 2] } ∧
       (get_llm_response call 3).sleeps.sum = 2 ^ 0 + 2 ^ 1) ∧
    (∀ e2, call 0 = .exn e0 → strContains e0 "429" = true →
     call 1 = .exn e1 → strContains e1 "429" = true →
     call 2 = .exn e2 →
     (get_llm_response call 3).result = { status := "error", reason := e2 }) ∧
    (inner 0 = { status := "error", reason := e0 } → strContains e0 "429" = true →
     inner 1 = { status := "error", reason := e1 } → strContains e1 "429" = true →
     inner 2 = j → j.status ≠ "error" →
     get_llm_response_with_retry inner 3 = { result := j, sleeps := [1, 2] }) ∧
    (∀ e2, inner 0 = { status := "error", reason := e0 } → strContains e0 "429" = true →
     inner 1 = { status := "error", reason := e1 } → strContains e1 "429" = true →
     inner 2 = { status := "error", reason := e2 } → strContains e2 "429" = true →
     get_llm_response_with_retry inner 3 =
       { result := { status := "error", reason := "Max retries exceeded for rate limit" },
         sleeps := [1, 2, 4] }) := by
  refine ⟨?_, ?_, ?_, ?_⟩
  · intro h0 h4a h1 h4b h2
    have : get_llm_response call 3 = { result := j, sleeps := [1, 2] } := by
      simp [get_llm_response, get_llm_response_go, h0, h4a, h1, h4b, h2]
    exact ⟨this, by rw [this]; rfl⟩
  · intro e2 h0 h4a h1 h4b h2
    simp [get_llm_response, get_llm_response_go, h0, h4a, h1, h4b, h2]
  · intro h0 h4a h1 h4b h2 hj
    simp [get_llm_response_with_retry, with_retry_go, h0, h4a, h1, h4b, h2, hj]
  · intro e2 h0 h4a h1 h4b h2 h4c
    simp [get_llm_response_with_retry, with_retry_go, h0, h4a, h1, h4b, h2, h4c]

/-- C7 witness: a concrete scripted classifier that rate-limits twice and
then returns an aligned judgment; the recorded result is the third attempt
with sleeps 1 and 2, and a fully rate-limited inner function leads the
targeted-pass wrapper to its max-retries error after sleeps 1, 2, 4. -/
theorem c7_backoff_retry_witness :
    get_llm_response
        (fun n => if n = 0 then .exn "Error 429 quota" else
          if n = 1 then .exn "again 429" else .ok { status := "aligned", reason := "ok" }) 3 =
      { result := { status := "aligned", reason := "ok" }, sleeps := [1, 2] } ∧
    get_llm_response_with_retry (fun _ => { status := "error", reason := "code 429" }) 3 =
      { result := { status := "error", reason := "Max retries exceeded for rate limit" },
        sleeps := [1, 2, 4] } :=
  ⟨((c7_backoff_retry
      (fun n => if n = 0 then .exn "Error 429 quota" else
        if n = 1 then .exn "again 429" else .ok { status := "aligned", reason := "ok" })
      (fun _ => { status := "error", reason := "code 429" })
      "Error 429 quota" "again 429" { status := "aligned", reason := "ok" }).1
      (by decide) (by decide) (by decide) (by decide) (by decide)).1,
   (c7_backoff_retry
      (fun n => if n = 0 then .exn "Error 429 quota" else
        if n = 1 then .exn "again 429" else .ok { status := "aligned", reason := "ok" })
      (fun _ => { status := "error", reason := "code 429" })
      "code 429" "code 429" { status := "aligned", reason := "ok" }).2.2.2 "code 429"
      (by decide) (by decide) (by decide) (by decide) (by decide) (by decide)⟩

/-! ## C2 and C4: the targeted re-judgment pass (fix_judgment_errors.py) -/

/-- `identify_error_entries(nodes)`: the indices of the nodes whose
judgment has status `error`. -/
def identify_error_entries (nodes : List Node) : List Nat :=
  (List.range nodes.length).filter (fun i =>
    match (nodes.get? i).bind Node.llm_judgment with
    | some j => j.status == "error"
    | none => false)

/-- The `prev_codes` map built before the re-judging loop:
`prev_codes[i] = nodes[i-1].get('code', '') if i > 0 else None`. -/
def prev_codes (nodes : List Node) (i : Nat) : Option String :=
  if i = 0 then none else (nodes.get? (i - 1)).map (fun n => n.code.getD "")

/-- Outcome of a targeted pass: the updated nodes and the counts the final
report prints (`fixed` non-error re-judgments, `failed` still-error ones). -/
structure PassOutcome where
  nodes : List Node
  fixed : Nat
  failed : Nat
deriving DecidableEq, Repr

/-- The re-judging loop of fix_judgment_errors.main over the error indices:
each targeted node is re-judged against `prevs idx` and its judgment
replaced; a result with status `error` counts as failed, anything else as
fixed. -/
def targetedLoop (ud : List String → List String → List String)
    (oracle : Nat → Judgment) (prevs : Nat → Option String) :
    List Nat → List Node → Nat → Nat → Nat → PassOutcome
  | [], ns, fixed, failed, _ => { nodes := ns, fixed := fixed, failed := failed }
  | idx :: rest, ns, fixed, failed, calls =>
    match ns.get? idx with
    | none => targetedLoop ud oracle prevs rest ns fixed failed calls
    | some nd =>
      let out := rejudge_entry ud (oracle calls) (prevs idx) nd
      let ns2 := ns.set idx { nd with llm_judgment := some out.judgment }
      if out.judgment.status == "error" then
        targetedLoop ud oracle prevs rest ns2 fixed (failed + 1) (calls + out.calls)
      else
        targetedLoop ud oracle prevs rest ns2 (fixed + 1) failed (calls + out.calls)

/-- The re-judging phase of fix_judgment_errors.main: error indices and the
previous-code map are computed up front from the loaded nodes. -/
def runTargetedPass (ud : List String → List String → List String)
    (oracle : Nat → Judgment) (nodes : List Node) : PassOutcome :=
  targetedLoop ud oracle (prev_codes nodes) (identify_error_entries nodes) nodes 0 0 0

/-- What fix_judgment_errors.main does to the filesystem after the loop. -/
inductive WriteAction where
  | noWrite
  | sideFile (path : String)
  | overwrite (path : String)
deriving DecidableEq, Repr

/-- `journal_path.replace(".json", "_fixed.json")`, the side-file path. -/
def fixed_file_path (p : String) : String :=
  strReplace p ".json" "_fixed.json"

/-- The persistence decision at the end of fix_judgment_errors.main: when
`fixed_count == 0` the function returns without writing anything; when some
entries were fixed but `failed_count > 0` the results go to the `_fixed`
side file; only when every re-judged entry ended non-error is the original
file overwritten. -/
def persistAction (journalPath : String) (o : PassOutcome) : WriteAction :=
  if o.fixed = 0 then .noWrite
  else if 0 < o.failed then .sideFile (fixed_file_path journalPath)
  else .overwrite journalPath

/-- C2 counterexample journal: a single node whose judgment erred. -/
def c2Nodes : List Node :=
  [{ id := "A", code := some "x=1", plan := some "p",
     llm_judgment := some { status := "error", reason := "429 quota" } }]

/-- C2 counterexample differ: empty diff only on equal line lists. -/
def c2Diff : List String → List String → List String :=
  fun a b => if a = b then [] else ["+ x"]

/-- C2 counterexample classifier: every call still rate-limits out. -/
def c2Oracle : Nat → Judgment :=
  fun _ => { status := "error", reason := "still 429" }

/-- C2 (counterexample): a targeted pass on one error node whose re-judgment
errs again has a still-failing node, yet the code writes nothing at all:
neither the side file (as the claim requires) nor the original.  The claim
fails because main returns early when `fixed_count == 0`. -/
theorem c2_no_side_file_counterexample :
    0 < (runTargetedPass c2Diff c2Oracle c2Nodes).failed ∧
    persistAction "journal_with_judgements.json"
        (runTargetedPass c2Diff c2Oracle c2Nodes) = WriteAction.noWrite ∧
    persistAction "journal_with_judgements.json"
        (runTargetedPass c2Diff c2Oracle c2Nodes) ≠
      WriteAction.sideFile (fixed_file_path "journal_with_judgements.json") := by
  decide

/-- C2 (amended): the persistence guard of a targeted pass, as implemented:
a pass that fixed at least one node while at least one still fails writes
the `_fixed` side file and leaves the original untouched; a pass that fixed
no node writes nothing at all (also leaving the original untouched); and
the original file is overwritten only when no targeted node still fails. -/
theorem c2_partial_failure_side_file (path : String)
    (ud : List String → List String → List String)
    (oracle : Nat → Judgment) (nodes : List Node) :
    (0 < (runTargetedPass ud oracle nodes).failed →
     0 < (runTargetedPass ud oracle nodes).fixed →
     persistAction path (runTargetedPass ud oracle nodes) =
       WriteAction.sideFile (fixed_file_path path)) ∧
    ((runTargetedPass ud oracle nodes).fixed = 0 →
     persistAction path (runTargetedPass ud oracle nodes) = WriteAction.noWrite) ∧
    (∀ p2, persistAction path (runTargetedPass ud oracle nodes) = WriteAction.overwrite p2 →
     (runTargetedPass ud oracle nodes).failed = 0 ∧ p2 = path) := by
  refine ⟨?_, ?_, ?_⟩
  · intro hfail hfix
    have h0 : ¬ (runTargetedPass ud oracle nodes).fixed = 0 := by omega
    simp [persistAction, h0, hfail]
  · intro hfix
    simp [persistAction, hfix]
  · intro p2 h
    by_cases h0 : (runTargetedPass ud oracle nodes).fixed = 0
    · simp [persistAction, h0] at h
    · by_cases h1 : 0 < (runTargetedPass ud oracle nodes).failed
      · simp [persistAction, h0, h1] at h
      · simp [persistAction, h0, h1] at h
        exact ⟨by omega, h.symm⟩

/-- C2 witness journal: two error nodes of which the scripted classifier
fixes the first and leaves the second in error. -/
def c2wNodes : List Node :=
  [{ id := "A", code := some "a=1", plan := some "p",
     llm_judgment := some { status := "error", reason := "429" } },
   { id := "B", code := some "b=2", plan := some "q",
     llm_judgment := some { status := "error", reason := "429" } }]

/-- C2 witness classifier: first call aligned, later calls still erring. -/
def c2wOracle : Nat → Judgment :=
  fun n => if n = 0 then { status := "aligned", reason := "ok" }
    else { status := "error", reason := "still 429" }

/-- C2 witness: on the two-node journal the pass fixes one node and one
still fails, so by the amended theorem the results go to the side file
(whose name carries the `_fixed` suffix), not the original. -/
theorem c2_partial_failure_side_file_witness :
    persistAction "journal_with_judgements.json"
        (runTargetedPass c2Diff c2wOracle c2wNodes) =
      WriteAction.sideFile (fixed_file_path "journal_with_judgements.json") ∧
    fixed_file_path "journal_with_judgements.json" =
      "journal_with_judgements_fixed.json" :=
  ⟨(c2_partial_failure_side_file "journal_with_judgements.json"
      c2Diff c2wOracle c2wNodes).1 (by decide) (by decide),
   by decide⟩

/-- Modelled from the spec: the previous-code rule the spec states for a
targeted re-judgment run — walk backward from the node and return the code
of the most recent preceding node whose judgment did not error, skipping
nodes that are themselves in error (null when none remains).  This
definition exists only to compare the spec with the implementation. -/
def prevNonErrorCodeSpec (nodes : List Node) : Nat → Option String
  | 0 => none
  | i + 1 =>
    match nodes.get? i with
    | none => none
    | some nd =>
      if (match nd.llm_judgment with
          | some j => j.status == "error"
          | none => false) then
        prevNonErrorCodeSpec nodes i
      else
        some (nd.code.getD "")

/-- C4 counterexample journal: two consecutive error nodes. -/
def c4Nodes : List Node :=
  [{ id := "A", code := some "a=1", plan := some "p",
     llm_judgment := some { status := "error", reason := "x" } },
   { id := "B", code := some "b=2", plan := some "q",
     llm_judgment := some { status := "error", reason := "y" } }]

/-- C4 (counterexample): re-judging node `B`, the pass diffs against
`prev_codes` index 1, which is the code of node `A` — itself an error node —
whereas the claimed walk (skipping error nodes) yields no previous code.  So
the implementation does not skip error nodes when reconstructing previous
code. -/
theorem c4_stale_prev_code_counterexample :
    prev_codes c4Nodes 1 = some "a=1" ∧
    prevNonErrorCodeSpec c4Nodes 1 = none ∧
    prev_codes c4Nodes 1 ≠ prevNonErrorCodeSpec c4Nodes 1 ∧
    ((c4Nodes.get? 0).bind Node.llm_judgment).map Judgment.status = some "error" := by
  decide

/-- C4 (amended): the previous code used for the node at index `i + 1` in a
targeted pass is always the code of the node at index `i` — the immediate
predecessor in list order — regardless of any judgment it carries (`none`
only for the first node), and the pass consults exactly this map. -/
theorem c4_prev_code_is_immediate_predecessor (nodes : List Node) (i : Nat)
    (h : i < nodes.length) :
    prev_codes nodes (i + 1) = some ((nodes.get ⟨i, h⟩).code.getD "") ∧
    prev_codes nodes 0 = none ∧
    (∀ f : Option Judgment → Option Judgment,
      prev_codes (nodes.map (fun n => { n with llm_judgment := f n.llm_judgment }))
          (i + 1) =
        prev_codes nodes (i + 1)) ∧
    (∀ ud oracle, runTargetedPass ud oracle nodes =
      targetedLoop ud oracle (prev_codes nodes) (identify_error_entries nodes)
        nodes 0 0 0) := by
  refine ⟨?_, rfl, ?_, fun _ _ => rfl⟩
  · simp only [prev_codes, if_neg (Nat.succ_ne_zero i), Nat.add_sub_cancel]
    rw [List.get?_eq_getElem? , List.getElem?_eq_getElem h]
    rfl
  · intro f
    simp only [prev_codes, if_neg (Nat.succ_ne_zero i), Nat.add_sub_cancel]
    rw [List.get?_eq_getElem?, List.get?_eq_getElem?, List.getElem?_map,
      Option.map_map]
    rfl

/-- C4 witness: on the counterexample journal, the amended rule gives node
`A`'s code as the previous code for node `B`. -/
theorem c4_prev_code_is_immediate_predecessor_witness :
    prev_codes c4Nodes 1 = some ((c4Nodes.get ⟨0, by decide⟩).code.getD "") :=
  (c4_prev_code_is_immediate_predecessor c4Nodes 0 (by decide)).1

/-! ## C9 and C10: the semantic redundancy grouper (plan_judge.py)

The intent classifier (`judge_plans_with_gemini` / `judge_plans_with_openai`
after markdown stripping and JSON parsing, with `[]` on any call or parse
failure) is the parameter `cls`, from the submitted plan list to the list of
index groups. -/

/-- Map with failure: `none` as soon as any element fails, modelling an
exception raised inside a Python list comprehension. -/
def mapOpt {α β : Type} (f : α → Option β) : List α → Option (List β)
  | [] => some []
  | x :: xs =>
    match f x, mapOpt f xs with
    | some y, some ys => some (y :: ys)
    | _, _ => none

/-- The `parent_map` defaultdict of analyze_all_plans: nodes grouped by
their `parent` field (the null bucket included) in first-occurrence order. -/
def parent_map_groups (data : List Node) : List (Option String × List Node) :=
  optFold (fun n => some (n.parent, n)) data

/-- `sorted([children[idx]['step'] for idx in group])`; `none` models the
IndexError raised by an index with no corresponding child. -/
def mapGroup (children : List Node) (g : List Nat) : Option (List Nat) :=
  (mapOpt (fun idx => children.get? idx) g).map (fun ns => sortNat (ns.map Node.step))

/-- The plan text submitted for a child: `c.get('plan', 'No plan provided')`. -/
def planOf (c : Node) : String :=
  c.plan.getD "No plan provided"

/-- The loop of analyze_all_plans over the parent buckets: a falsy or
fewer-than-two-children parent is skipped; otherwise the classifier output
is remapped from indices to sorted step numbers — an out-of-range index
aborts the entire pass (`none`) — and a parent with an empty group list is
left out of the report. -/
def analyzePlansLoop (cls : List String → List (List Nat)) :
    List (Option String × List Node) → Option (List (String × List (List Nat)))
  | [] => some []
  | (none, _) :: rest => analyzePlansLoop cls rest
  | (some p, children) :: rest =>
    if p = "" ∨ children.length < 2 then analyzePlansLoop cls rest
    else
      match mapOpt (mapGroup children) (cls (children.map planOf)) with
      | none => none
      | some stepGroups =>
        match analyzePlansLoop cls rest with
        | none => none
        | some out =>
          some (if stepGroups.isEmpty then out else (p, stepGroups) :: out)

/-- The in-memory computation of `analyze_all_plans(json_file)`; `none` is
an uncaught exception escaping the function, in which case no report file
is written at all. -/
def analyze_all_plans (cls : List String → List (List Nat)) (data : List Node) :
    Option (List (String × List (List Nat))) :=
  analyzePlansLoop cls (parent_map_groups data)

theorem mapOpt_mem {α β : Type} {f : α → Option β} :
    ∀ {l : List α} {l2 : List β}, mapOpt f l = some l2 →
      ∀ y ∈ l2, ∃ x ∈ l, f x = some y := by
  intro l
  induction l with
  | nil =>
    intro l2 h y hy
    simp [mapOpt] at h
    subst h
    cases hy
  | cons x xs ih =>
    intro l2 h y hy
    cases hfx : f x with
    | none => simp [mapOpt, hfx] at h
    | some y0 =>
      cases hrest : mapOpt f xs with
      | none => simp [mapOpt, hfx, hrest] at h
      | some ys =>
        simp [mapOpt, hfx, hrest] at h
        rw [← h] at hy
        rcases List.mem_cons.mp hy with hhd | htl
        · exact ⟨x, List.mem_cons_self _ _, hhd ▸ hfx⟩
        · obtain ⟨x2, hx2, hfx2⟩ := ih hrest y htl
          exact ⟨x2, List.mem_cons_of_mem _ hx2, hfx2⟩

theorem mapGroup_sorted {children : List Node} {g0 g : List Nat}
    (h : mapGroup children g0 = some g) : List.Sorted (· ≤ ·) g := by
  unfold mapGroup at h
  cases hm : mapOpt (fun idx => children.get? idx) g0 with
  | none => rw [hm] at h; cases h
  | some ns =>
    rw [hm] at h
    simp only [Option.map_some'] at h
    obtain rfl : sortNat (ns.map Node.step) = g := by
      simpa using h
    exact List.sorted_insertionSort _ _

theorem analyzePlansLoop_mem {cls : List String → List (List Nat)} :
    ∀ {pairs : List (Option String × List Node)}
      {res : List (String × List (List Nat))},
      analyzePlansLoop cls pairs = some res →
      ∀ p gs, (p, gs) ∈ res →
        gs ≠ [] ∧ ∃ children, (some p, children) ∈ pairs ∧
          ¬ (p = "" ∨ children.length < 2) ∧
          mapOpt (mapGroup children) (cls (children.map planOf)) = some gs := by
  intro pairs
  induction pairs with
  | nil =>
    intro res h p gs hmem
    simp [analyzePlansLoop] at h
    subst h
    cases hmem
  | cons hd rest ih =>
    obtain ⟨pid, children⟩ := hd
    intro res h p gs hmem
    cases pid with
    | none =>
      simp only [analyzePlansLoop] at h
      obtain ⟨hne, cs, hcs, hg, hmg⟩ := ih h p gs hmem
      exact ⟨hne, cs, List.mem_cons_of_mem _ hcs, hg, hmg⟩
    | some p2 =>
      by_cases hguard : p2 = "" ∨ children.length < 2
      · rw [show analyzePlansLoop cls ((some p2, children) :: rest) =
            analyzePlansLoop cls rest from by
          simp [analyzePlansLoop, hguard]] at h
        obtain ⟨hne, cs, hcs, hg, hmg⟩ := ih h p gs hmem
        exact ⟨hne, cs, List.mem_cons_of_mem _ hcs, hg, hmg⟩
      · cases hmg : mapOpt (mapGroup children) (cls (children.map planOf)) with
        | none =>
          rw [show analyzePlansLoop cls ((some p2, children) :: rest) = none from by
            simp [analyzePlansLoop, hguard, hmg]] at h
          cases h
        | some sg =>
          cases hrest : analyzePlansLoop cls rest with
          | none =>
            rw [show analyzePlansLoop cls ((some p2, children) :: rest) = none from by
              simp [analyzePlansLoop, hguard, hmg, hrest]] at h
            cases h
          | some out =>
            rw [show analyzePlansLoop cls ((some p2, children) :: rest) =
                some (if sg.isEmpty then out else (p2, sg) :: out) from by
              simp [analyzePlansLoop, hguard, hmg, hrest]] at h
            by_cases hemp : sg.isEmpty
            · rw [if_pos hemp] at h
              obtain rfl : out = res := by simpa using h
              obtain ⟨hne, cs, hcs, hg, hmg2⟩ := ih hrest p gs hmem
              exact ⟨hne, cs, List.mem_cons_of_mem _ hcs, hg, hmg2⟩
            · rw [if_neg hemp] at h
              obtain rfl : (p2, sg) :: out = res := by simpa using h
              rcases List.mem_cons.mp hmem with hhd | htl
              · obtain ⟨he1, he2⟩ : p = p2 ∧ gs = sg := by
                  simpa [Prod.ext_iff] using hhd
                subst he1; subst he2
                refine ⟨?_, children, List.mem_cons_self _ _, hguard, hmg⟩
                intro hnil
                rw [hnil] at hemp
                exact hemp rfl
              · obtain ⟨hne, cs, hcs, hg, hmg2⟩ := ih hrest p gs htl
                exact ⟨hne, cs, List.mem_cons_of_mem _ hcs, hg, hmg2⟩

/-- C9 counterexample journal: two siblings of parent `P` with steps 1, 2. -/
def c9Data : List Node :=
  [{ id := "B", step := 1, parent := some "P", plan := some "use cnn" },
   { id := "C", step := 2, parent := some "P", plan := some "use rnn" }]

/-- C9 counterexample classifier: returns one singleton index group. -/
def c9Cls : List String → List (List Nat) :=
  fun _ => [[0]]

/-- C9 (counterexample): a classifier response containing a singleton index
group is emitted as a singleton step group — analyze_all_plans applies no
size filter whatsoever, so the claimed defensive `≥ 2` filtering does not
exist in the code. -/
theorem c9_singleton_group_counterexample :
    analyze_all_plans c9Cls c9Data = some [("P", [[1]])] ∧
    ¬ (∀ pr ∈ [("P", [([1] : List Nat)])], ∀ g ∈ pr.2, 2 ≤ g.length) := by
  decide

/-- C9 (amended): every parent entry emitted by the grouper has a non-empty
group list, every emitted group is sorted ascending by step number, and the
emitted groups are exactly the classifier's index groups remapped to steps
— with no filtering of groups smaller than two (so singleton or empty
classifier groups pass straight through). -/
theorem c9_semantic_groups (cls : List String → List (List Nat))
    (data : List Node) (res : List (String × List (List Nat)))
    (h : analyze_all_plans cls data = some res) :
    ∀ p gs, (p, gs) ∈ res →
      gs ≠ [] ∧
      (∀ g ∈ gs, List.Sorted (· ≤ ·) g) ∧
      ∃ children, (some p, children) ∈ parent_map_groups data ∧ p ≠ "" ∧
        2 ≤ children.length ∧
        mapOpt (mapGroup children) (cls (children.map planOf)) = some gs := by
  intro p gs hmem
  obtain ⟨hne, children, hcmem, hguard, hmg⟩ := analyzePlansLoop_mem h p gs hmem
  push_neg at hguard
  refine ⟨hne, ?_, children, hcmem, hguard.1, hguard.2, hmg⟩
  intro g hg
  obtain ⟨g0, _, hmap⟩ := mapOpt_mem hmg g hg
  exact mapGroup_sorted hmap

/-- C9 witness: on the counterexample journal the amended theorem applies,
certifying a non-empty, sorted (singleton) group list that is exactly the
remapped classifier output. -/
theorem c9_semantic_groups_witness :
    ([[1]] : List (List Nat)) ≠ [] ∧
    (∀ g ∈ ([[1]] : List (List Nat)), List.Sorted (· ≤ ·) g) ∧
    ∃ children, (some "P", children) ∈ parent_map_groups c9Data ∧ "P" ≠ "" ∧
      2 ≤ children.length ∧
      mapOpt (mapGroup children) (c9Cls (children.map planOf)) = some [[1]] :=
  c9_semantic_groups c9Cls c9Data [("P", [[1]])] (by decide) "P" [[1]] (by decide)

/-- C10 journal: two sibling pairs, under parents `P` (steps 1, 2) and `D`
(steps 3, 4). -/
def c10Data : List Node :=
  [{ id := "B", step := 1, parent := some "P", plan := some "p1" },
   { id := "C", step := 2, parent := some "P", plan := some "p2" },
   { id := "E", step := 3, parent := some "D", plan := some "q1" },
   { id := "F", step := 4, parent := some "D", plan := some "q2" }]

/-- C10 classifier whose response for parent `P` contains the out-of-range
index 5 (valid JSON, but only indices 0 and 1 exist). -/
def c10BadCls : List String → List (List Nat) :=
  fun plans => if plans = ["p1", "p2"] then [[5]] else [[0, 1]]

/-- C10 classifier whose call for parent `P` failed: the failure is caught
inside the call wrapper and normalized to `[]`. -/
def c10FailCls : List String → List (List Nat) :=
  fun plans => if plans = ["p1", "p2"] then [] else [[0, 1]]

/-- C10: a classifier response that parses as a list of index lists but
contains an index with no corresponding sibling makes the index-to-step
remapping raise, aborting the entire pass (no report at all, parent `D`
included), whereas a call or parse failure — normalized to `[]` — merely
skips parent `P` and the pass continues to report parent `D`. -/
theorem c10_out_of_range_index_aborts :
    analyze_all_plans c10BadCls c10Data = none ∧
    analyze_all_plans c10FailCls c10Data = some [("D", [[3, 4]])] := by
  decide

end JournalEngine
